import Mathlib

/-!
# gitignore: shallow embedding of `main.go` and its verified properties

The program lists the root tree of `github/gitignore@main`, builds an index
from lowercase language names to blob SHAs, downloads one blob, decodes it and
writes it to a file.

Conventions of the embedding.

* Go strings are lists of characters (`Str`); byte slices are lists of `Byte`.
* Go's multiple results `(value, error)` are `Except GoError value`.
* Stateful code passes a `State` explicitly: the trace of observable events
  (remote calls, log records, pager invocations) and the file system.
* What the program takes from outside (`strings.ToLower`, `filepath.Join`,
  the remote API, failures of file operations, the order in which `range`
  visits a map) is a field of `World`, or an explicit argument.
-/

namespace Gitignore

/-! ## Strings -/

/-- A Go string. -/
abbrev Str := List Char

/-- Go `strings.HasSuffix`: `len(s) >= len(suffix) && s[len(s)-len(suffix):] == suffix`. -/
def HasSuffix (s suffix : Str) : Bool :=
  decide (suffix.length ≤ s.length) && (s.drop (s.length - suffix.length) == suffix)

/-- Go `strings.TrimSuffix`: drops `suffix` from the end of `s` when `s` ends
with it, and returns `s` unchanged otherwise. -/
def TrimSuffix (s suffix : Str) : Str :=
  if HasSuffix s suffix then s.take (s.length - suffix.length) else s

/-- Go `strings.Contains`: `substr` occurs somewhere in `s`. -/
def Contains : Str → Str → Bool
  | [], substr => substr.isPrefixOf []
  | c :: s, substr => substr.isPrefixOf (c :: s) || Contains s substr

/-- Lowercasing of the ASCII letters, the restriction of Go's `strings.ToLower`
to ASCII text. Used to instantiate `World.ToLower` on concrete inputs. -/
def asciiToLower (s : Str) : Str :=
  s.map fun c => if 'A' ≤ c ∧ c ≤ 'Z' then Char.ofNat (c.toNat + 32) else c

/-! ## Errors, events, state -/

/-- Go `error` values that the program can see. -/
inductive GoError where
  /-- an error returned by the GitHub client (transport, status, decoding) -/
  | remote (msg : Str)
  /-- Go `base64.CorruptInputError` (the byte offset is not modelled) -/
  | corruptInput
  /-- Go `fmt.Errorf(format, args...)`, kept unformatted -/
  | errorf (format : Str) (args : List Str)
  /-- an error of the operating system (file operations, exec) -/
  | os (msg : Str)
  deriving DecidableEq, Repr

deriving instance DecidableEq for Except

/-- An argument of a `Printf` call. -/
inductive Arg where
  | str (s : Str)
  | err (e : GoError)
  deriving DecidableEq, Repr

/-- Observable events of a run, in the order they happen. `Printf` calls are
kept unformatted: the format string and its arguments. -/
inductive Event where
  /-- the call `client.Git.GetTree(ctx, owner, repo, ref, recursive)` -/
  | GetTree (owner repo ref : Str) (recursive : Bool)
  /-- the call `client.Git.GetBlob(ctx, owner, repo, sha)` -/
  | GetBlob (owner repo sha : Str)
  /-- the call `logger.Printf(format, args...)`, on standard output -/
  | stdoutPrintf (format : Str) (args : List Arg)
  /-- text written to standard output by `logger.Println` -/
  | stdoutText (text : Str)
  /-- the call `loggerErr.Printf(format, args...)`, on standard error -/
  | stderrPrintf (format : Str) (args : List Arg)
  /-- the call `flag.Usage()` -/
  | usage
  /-- a message of the flag package on standard error -/
  | flagError (format : Str) (args : List Str)
  /-- the pager at `path` is run with `stdin` as its standard input -/
  | pager (path : Str) (stdin : Str)
  deriving DecidableEq, Repr

/-- A byte. -/
abbrev Byte := Fin 256

/-- An open file handle (`*os.File`). -/
structure Handle where
  fd : Nat
  path : Str
  deriving DecidableEq, Repr

/-- The file system: the content of every path that names a file, and the
handles that are open. -/
structure FS where
  files : Str → Option (List Byte)
  handles : List Handle
  nextFd : Nat

/-- The state threaded through the program. -/
structure State where
  trace : List Event
  fs : FS

/-- Appends an event to the trace. -/
def State.emit (s : State) (e : Event) : State :=
  { s with trace := s.trace ++ [e] }

/-! ## The language index (`map[string]string`) -/

/-- A Go `map[string]string`, as an association list with distinct keys. -/
abbrev GoMap := List (Str × Str)

/-- The value stored under `k`: Go `v, ok := m[k]`. -/
def GoMap.lookup : GoMap → Str → Option Str
  | [], _ => none
  | (k', v) :: m, k => if k' = k then some v else GoMap.lookup m k

/-- The map without its binding for `k`. -/
def GoMap.delete : GoMap → Str → GoMap
  | [], _ => []
  | (k', v) :: m, k => if k' = k then GoMap.delete m k else (k', v) :: GoMap.delete m k

/-- Go `m[k] = v`: a binding for `k` replaces the one already there. -/
def GoMap.insert (m : GoMap) (k v : Str) : GoMap :=
  (k, v) :: m.delete k

/-- The keys of the map. -/
def GoMap.keys (m : GoMap) : List Str := m.map Prod.fst

/-! ## The remote API -/

/-- The entry of a tree listing, go-github `TreeEntry`: every field is a
pointer, absent when `none`. -/
structure TreeEntry where
  SHA : Option Str
  Path : Option Str
  Type_ : Option Str
  deriving DecidableEq, Repr

/-- The getter `GetSHA`: the empty string when the field is absent. -/
def TreeEntry.GetSHA (e : TreeEntry) : Str := e.SHA.getD []

/-- The getter `GetPath`: the empty string when the field is absent. -/
def TreeEntry.GetPath (e : TreeEntry) : Str := e.Path.getD []

/-- The getter `GetType`: the empty string when the field is absent. -/
def TreeEntry.GetType (e : TreeEntry) : Str := e.Type_.getD []

/-- The tree listing, go-github `Tree`. -/
structure Tree where
  Entries : List TreeEntry
  deriving DecidableEq, Repr

/-- A blob, go-github `Blob`. -/
structure Blob where
  Content : Option Str
  Encoding : Option Str
  deriving DecidableEq, Repr

/-- The getter `GetContent`. -/
def Blob.GetContent (b : Blob) : Str := b.Content.getD []

/-- The getter `GetEncoding`. -/
def Blob.GetEncoding (b : Blob) : Str := b.Encoding.getD []

/-- The GitHub client: what the two calls the program makes answer. -/
structure Client where
  GetTree : (owner repo ref : Str) → (recursive : Bool) → Except GoError Tree
  GetBlob : (owner repo sha : Str) → Except GoError Blob

/-- The entry type of a plain file, "blob". -/
def blobType : Str := "blob".toList

/-- The template-file marker, ".gitignore". -/
def dotGitignore : Str := ".gitignore".toList

def repoOwner : Str := "github".toList
def repo : Str := "gitignore".toList
def repoBranch : Str := "main".toList

/-! ## `generateAvailableLanguages` -/

/-- The body of the loop of `generateAvailableLanguages` for one entry. -/
def indexStep (ToLower : Str → Str) (results : GoMap) (file : TreeEntry) : GoMap :=
  if file.GetType ≠ blobType then results
  else if !Contains file.GetPath dotGitignore then results
  else
    let l := TrimSuffix file.GetPath dotGitignore
    let l := ToLower l
    results.insert l file.GetSHA

/-- The function `generateAvailableLanguages`: one `GetTree` call, then the
loop over the entries of the listing. -/
def generateAvailableLanguages (ToLower : Str → Str) (client : Client) (s : State) :
    Except GoError GoMap × State :=
  let s := s.emit (.GetTree repoOwner repo repoBranch false)
  match client.GetTree repoOwner repo repoBranch false with
  | .error err => (.error err, s)
  | .ok tree => (.ok (tree.Entries.foldl (indexStep ToLower) []), s)

/-- The entry `e` is one that the loop records under key `k`: its type is
"blob", its path contains ".gitignore", and the path with a trailing
".gitignore" removed, then lowercased, is `k`. -/
def contributes (ToLower : Str → Str) (k : Str) (e : TreeEntry) : Bool :=
  decide (e.GetType = blobType) && Contains e.GetPath dotGitignore &&
    decide (ToLower (TrimSuffix e.GetPath dotGitignore) = k)

/-- The lookup of the driver (`main`, lines 76-77): lowercase the argument,
then look it up in the index. -/
def lookupLanguage (ToLower : Str → Str) (languages : GoMap) (arg : Str) : Option Str :=
  languages.lookup (ToLower arg)

/-! ## `encoding/base64`, `StdEncoding` -/

/-- The alphabet of `base64.StdEncoding`. -/
def encodeStd : Str :=
  "ABCDEFGHIJKLMNOPQRSTUVWXYZabcdefghijklmnopqrstuvwxyz0123456789+/".toList

/-- The table `enc.encode`: the character of the sextet `i`. -/
def encodeChar (i : Nat) : Char := encodeStd.getD i 'A'

/-- The table `enc.decodeMap`: the sextet of a character of the alphabet, and
`none` (the byte 0xff of the Go table) for every other character. -/
def decodeMap (c : Char) : Option Nat :=
  if encodeStd.indexOf c < 64 then some (encodeStd.indexOf c) else none

/-- The conversion `byte(n)`: the low eight bits. -/
def toByte (n : Nat) : Byte := ⟨n % 256, Nat.mod_lt n (by decide)⟩

/-- Go `StdEncoding.EncodeToString`: the standard, padded base64 encoding. Three
bytes give four characters; one or two bytes left over give two or three
characters and padding up to four. -/
def EncodeToString : List Byte → Str
  | b0 :: b1 :: b2 :: rest =>
    let val := b0.val <<< 16 ||| b1.val <<< 8 ||| b2.val
    encodeChar (val >>> 18 &&& 0x3F) :: encodeChar (val >>> 12 &&& 0x3F) ::
      encodeChar (val >>> 6 &&& 0x3F) :: encodeChar (val &&& 0x3F) :: EncodeToString rest
  | [b0, b1] =>
    let val := b0.val <<< 16 ||| b1.val <<< 8
    [encodeChar (val >>> 18 &&& 0x3F), encodeChar (val >>> 12 &&& 0x3F),
      encodeChar (val >>> 6 &&& 0x3F), '=']
  | [b0] =>
    let val := b0.val <<< 16
    [encodeChar (val >>> 18 &&& 0x3F), encodeChar (val >>> 12 &&& 0x3F), '=', '=']
  | [] => []

/-- The end of `decodeQuantum`: the sextets collected in `dbuf` (`dlen` of
them, the missing ones zero) are assembled into 24 bits, of which the first
`dlen - 1` bytes are the output. -/
def quantumBytes (dbuf : List Nat) : List Byte :=
  let val := dbuf.getD 0 0 <<< 18 ||| dbuf.getD 1 0 <<< 12 ||| dbuf.getD 2 0 <<< 6 ||| dbuf.getD 3 0
  [toByte (val >>> 16), toByte (val >>> 8), toByte (val >>> 0)].take (dbuf.length - 1)

/-- The loops of `decodeQuantum` that skip over line breaks. -/
def skipNewlines : Str → Str
  | [] => []
  | c :: rest => if c = '\n' ∨ c = '\r' then skipNewlines rest else c :: rest

/-- What `decodeQuantum` does once the padding is consumed: anything but line
breaks after it is trailing garbage. -/
def decodePadded (dbuf : List Nat) (rest : Str) : Except GoError (List Byte) :=
  if skipNewlines rest ≠ [] then .error .corruptInput else .ok (quantumBytes dbuf)

/-- Go `Decoding.Decode` with `decodeQuantum` inlined, for `StdEncoding`
(padded, not strict): `dbuf` holds the sextets of the quantum being read. Line
breaks are skipped, a quantum is four sextets or two or three sextets and
padding, and padding ends the input. The fast paths of `Decode` for eight and
four characters compute the same result and are not modelled. -/
def decodeFrom : Str → List Nat → Except GoError (List Byte)
  | [], dbuf => if dbuf.length = 0 then .ok [] else .error .corruptInput
  | c :: rest, dbuf =>
    match decodeMap c with
    | some out =>
      if dbuf.length = 3 then
        match decodeFrom rest [] with
        | .ok data => .ok (quantumBytes (dbuf ++ [out]) ++ data)
        | .error err => .error err
      else decodeFrom rest (dbuf ++ [out])
    | none =>
      if c = '\n' ∨ c = '\r' then decodeFrom rest dbuf
      else if c ≠ '=' then .error .corruptInput
      else if dbuf.length < 2 then .error .corruptInput
      else if dbuf.length = 2 then
        match skipNewlines rest with
        | [] => .error .corruptInput
        | c2 :: rest2 => if c2 ≠ '=' then .error .corruptInput else decodePadded dbuf rest2
      else decodePadded dbuf rest

/-- Go `StdEncoding.DecodeString`. -/
def DecodeString (s : Str) : Except GoError (List Byte) := decodeFrom s []

/-! ## `downloadFileContent` -/

/-- The function `downloadFileContent`: one `GetBlob` call, then the switch
on the declared encoding. -/
def downloadFileContent (client : Client) (sha : Str) (s : State) :
    Except GoError (List Byte) × State :=
  let s := s.emit (.GetBlob repoOwner repo sha)
  match client.GetBlob repoOwner repo sha with
  | .error err => (.error err, s)
  | .ok blob =>
    let enc := blob.GetEncoding
    if enc = "base64".toList then
      match DecodeString blob.GetContent with
      | .error err => (.error err, s)
      | .ok data => (.ok data, s)
    else (.error (.errorf "encoding %q is not supported".toList [enc]), s)

/-! ## The world outside the program -/

/-- The package-level variables that the flags are bound to. -/
structure Flags where
  version : Bool
  githubToken : Str
  outputDirectory : Str
  outputFileName : Str
  list : Bool
  deriving DecidableEq, Repr

/-- What the program takes from its environment. -/
structure World where
  /-- Go `strings.ToLower` -/
  ToLower : Str → Str
  /-- Go `filepath.Join` of a directory and a file name -/
  Join : Str → Str → Str
  /-- Go `filepath.Abs` -/
  Abs : Str → Except GoError Str
  /-- the result of `os.Executable()` -/
  Executable : Str
  /-- Go `os.Getenv` -/
  Getenv : Str → Str
  /-- Go `exec.LookPath` -/
  LookPath : Str → Except GoError Str
  /-- the result of `cmd.Run()` for the program at a path, fed a text -/
  Run : Str → Str → Option GoError
  /-- the remote API as it answers a client holding this token (`none`: anonymous) -/
  github : Option Str → Client
  /-- whether `os.Create` of this path fails -/
  createErr : Str → Option GoError
  /-- whether `Write` on this handle fails, and after how many bytes -/
  writeErr : Handle → List Byte → Option (Nat × GoError)
  /-- whether `Close` of this handle reports an error -/
  closeErr : Handle → Option GoError
  /-- the order in which `for k := range data` visits the keys of a map -/
  rangeOrder : GoMap → List Str

/-! ## `path/filepath` (Unix) -/

/-- The components of a path between its slashes. -/
def splitSlash : Str → List Str
  | [] => [[]]
  | c :: rest =>
    if c = '/' then [] :: splitSlash rest
    else
      match splitSlash rest with
      | [] => [[c]]
      | x :: xs => (c :: x) :: xs

/-- The components that `filepath.Clean` keeps: empty and "." components are
dropped, ".." removes the component before it, or is dropped at the root, or
is kept when there is nothing to remove. `stack` is in reverse order. -/
def cleanComponents (rooted : Bool) : List Str → List Str → List Str
  | stack, [] => stack.reverse
  | stack, c :: cs =>
    if c = [] ∨ c = ".".toList then cleanComponents rooted stack cs
    else if c = "..".toList then
      match stack with
      | top :: st =>
        if top = "..".toList then cleanComponents rooted (c :: stack) cs
        else cleanComponents rooted st cs
      | [] => if rooted then cleanComponents rooted [] cs else cleanComponents rooted [c] cs
    else cleanComponents rooted (c :: stack) cs

/-- Go `filepath.Clean`: the shortest path equivalent to `path` by lexical
processing. -/
def Clean (path : Str) : Str :=
  let rooted := path.head? = some '/'
  let out := "/".toList.intercalate (cleanComponents rooted [] (splitSlash path))
  let out := if rooted then '/' :: out else out
  if out = [] then ".".toList else out

/-- Go `filepath.Join` of two elements: the elements from the first non-empty
one on, joined by a slash and cleaned; the empty string when both are empty. -/
def filepathJoin (dir file : Str) : Str :=
  if dir ≠ [] then Clean (dir ++ "/".toList ++ file)
  else if file ≠ [] then Clean file
  else []

/-! ## Files -/

/-- Go `os.Create`: the file at `path` is created or truncated, and a handle
on it is opened. -/
def osCreate (w : World) (path : Str) (fs : FS) : Except GoError Handle × FS :=
  match w.createErr path with
  | some err => (.error err, fs)
  | none =>
    let file : Handle := { fd := fs.nextFd, path := path }
    (.ok file,
      { files := fun p => if p = path then some [] else fs.files p
        handles := file :: fs.handles
        nextFd := fs.nextFd + 1 })

/-- Go `(*os.File).Write`: the bytes are added where the handle stands, which
is the end of the file (a handle comes from `osCreate`, on an empty file). A
failing write leaves the first `n` bytes. -/
def fileWrite (w : World) (file : Handle) (b : List Byte) (fs : FS) : Option GoError × FS :=
  let old := (fs.files file.path).getD []
  match w.writeErr file b with
  | some (n, err) =>
    (some err, { fs with files := fun p => if p = file.path then some (old ++ b.take n) else fs.files p })
  | none =>
    (none, { fs with files := fun p => if p = file.path then some (old ++ b) else fs.files p })

/-- Go `(*os.File).Close`: the handle is released, also when an error is
reported. -/
def fileClose (w : World) (file : Handle) (fs : FS) : Option GoError × FS :=
  (w.closeErr file, { fs with handles := fs.handles.erase file })

/-! ## `writeContentToFile` -/

/-- The function `writeContentToFile`; `g` holds the package-level
`outputDirectory` and `outputFileName`. The result is the returned `error`,
`none` for `nil`. -/
def writeContentToFile (w : World) (g : Flags) (content : List Byte) (s : State) :
    Option GoError × State :=
  let path := w.Join g.outputDirectory g.outputFileName
  match osCreate w path s.fs with
  | (.error err, fs) => (some err, { s with fs := fs })
  | (.ok file, fs) =>
    match fileWrite w file content fs with
    | (some err, fs) => (some err, { s with fs := fs })
    | (none, fs) =>
      match fileClose w file fs with
      | (some err, fs) => (some err, { s with fs := fs })
      | (none, fs) =>
        let s := { s with fs := fs }
        match w.Abs path with
        | .ok abs => (none, s.emit (.stdoutPrintf "file successfully writed to %s".toList [.str abs]))
        | .error _ => (none, s)

/-! ## `printAvailableLanguages` -/

/-- The header that `printAvailableLanguages` starts its output with. -/
def listHeader : Str := "Available languages:".toList

/-- The string `output` that `printAvailableLanguages` builds: the header and
a line break, then a line break and the key for every key visited. -/
def listOutput (order : List Str) : Str :=
  order.foldl (fun output k => output ++ ('\n' :: k)) (listHeader ++ ['\n'])

/-- The function `printAvailableLanguages`. `logger.Println(output)` writes
`output` and a line break to standard output. -/
def printAvailableLanguages (w : World) (data : GoMap) (s : State) : State :=
  let output := listOutput (w.rangeOrder data)
  match w.LookPath (w.Getenv "PAGER".toList) with
  | .error _ => s.emit (.stdoutText (output ++ ['\n']))
  | .ok path =>
    let s := s.emit (.pager path output)
    match w.Run path output with
    | some _ => s.emit (.stdoutText (output ++ ['\n']))
    | none => s

/-- The lines of a text: the segments that a line break ends, and what
follows the last line break when it is not empty. `cur` is the line being
read. -/
def linesFrom : Str → Str → List Str
  | [], cur => if cur = [] then [] else [cur]
  | c :: rest, cur => if c = '\n' then cur :: linesFrom rest [] else linesFrom rest (cur ++ [c])

/-- The lines of a text. -/
def lines (text : Str) : List Str := linesFrom text []

/-! ## The `flag` package -/

/-- Go `strconv.ParseBool`. -/
def ParseBool (str : Str) : Option Bool :=
  if str ∈ ["1", "t", "T", "TRUE", "true", "True"].map String.toList then some true
  else if str ∈ ["0", "f", "F", "FALSE", "false", "False"].map String.toList then some false
  else none

/-- The outcome of `flag.Parse()` on `flag.CommandLine`, whose error handling
is `ExitOnError`. -/
inductive FlagResult where
  /-- all flags are parsed; `args` are the arguments left -/
  | parsed (g : Flags) (args : List Str)
  /-- the flag `-h` or `-help`: usage is printed, the process exits with status 0 -/
  | help
  /-- a parse error: message and usage are printed, the process exits with status 2 -/
  | failf (format : Str) (args : List Str)
  deriving DecidableEq, Repr

/-- The split of `name=value` at the first `=` that is not the first
character (`parseOne`). -/
def splitValue : Str → Str × Option Str
  | [] => ([], none)
  | c :: rest =>
    match rest.span (fun x => x != '=') with
    | (name, []) => (c :: name, none)
    | (name, _ :: value) => (c :: name, some value)

/-- Sets the variable bound to the boolean flag `name`. -/
def setBoolFlag (g : Flags) (name : Str) (b : Bool) : Option Flags :=
  if name = "list".toList then some { g with list := b }
  else if name = "version".toList then some { g with version := b }
  else none

/-- Sets the variable bound to the string flag `name`. -/
def setStringFlag (g : Flags) (name : Str) (v : Str) : Option Flags :=
  if name = "filename".toList then some { g with outputFileName := v }
  else if name = "directory".toList then some { g with outputDirectory := v }
  else if name = "token".toList then some { g with githubToken := v }
  else none

/-- The outcome of `parseOne`. -/
inductive ParseOne where
  /-- the result `(false, nil)`: the flags are over; `args` are the arguments left -/
  | stop (args : List Str)
  /-- the result `(true, nil)`: a flag is parsed and set; `args` are the arguments left -/
  | seen (g : Flags) (args : List Str)
  /-- the result `(false, ErrHelp)` -/
  | help
  /-- the result `(false, f.failf(format, args...))` -/
  | failf (format : Str) (args : List Str)
  deriving DecidableEq, Repr

/-- The second half of `parseOne`, once the argument is split into the name
of the flag and the value after `=`, if any: the flag is looked up among the
five flags that `main` defines and set. `list` and `version` are boolean
flags and need no value; `filename`, `directory` and `token` are string flags
and take the next argument when no value is attached. -/
def parseFlag (g : Flags) (name : Str) (value : Option Str) (rest : List Str) : ParseOne :=
  if name = "list".toList ∨ name = "version".toList then
    match value with
    | some v =>
      match ParseBool v with
      | some b =>
        match setBoolFlag g name b with
        | some g => .seen g rest
        | none => .failf "flag provided but not defined: -%s".toList [name]
      | none => .failf "invalid boolean value %q for -%s: %v".toList [v, name]
    | none =>
      match setBoolFlag g name true with
      | some g => .seen g rest
      | none => .failf "flag provided but not defined: -%s".toList [name]
  else if name = "filename".toList ∨ name = "directory".toList ∨ name = "token".toList then
    match value with
    | some v =>
      match setStringFlag g name v with
      | some g => .seen g rest
      | none => .failf "flag provided but not defined: -%s".toList [name]
    | none =>
      match rest with
      | [] => .failf "flag needs an argument: -%s".toList [name]
      | v :: rest =>
        match setStringFlag g name v with
        | some g => .seen g rest
        | none => .failf "flag provided but not defined: -%s".toList [name]
  else if name = "help".toList ∨ name = "h".toList then .help
  else .failf "flag provided but not defined: -%s".toList [name]

/-- Go `(*FlagSet).parseOne`: an argument that is not of the form `-name` or
`--name` ends the flags, as does `--`; otherwise the dashes are stripped, the
name is split at `=`, and the flag is set by `parseFlag`. -/
def parseOne (g : Flags) (args : List Str) : ParseOne :=
  match args with
  | [] => .stop []
  | s :: rest =>
    if s.length < 2 ∨ s.head? ≠ some '-' then .stop (s :: rest)
    else if s = "--".toList then .stop rest
    else
      let numMinuses := if s.get? 1 = some '-' then 2 else 1
      let name := s.drop numMinuses
      if name.length = 0 ∨ name.head? = some '-' ∨ name.head? = some '=' then
        .failf "bad flag syntax: %s".toList [s]
      else
        parseFlag g (splitValue name).1 (splitValue name).2 rest

/-- The loop of `(*FlagSet).Parse` over `parseOne`, run at most `fuel` times.
Every flag that is parsed consumes an argument, so as many rounds as there are
arguments are enough (`flagParse_unfold`). -/
def parseLoop : Nat → Flags → List Str → FlagResult
  | 0, g, args => .parsed g args
  | fuel + 1, g, args =>
    match parseOne g args with
    | .stop args => .parsed g args
    | .seen g args => parseLoop fuel g args
    | .help => .help
    | .failf format a => .failf format a

/-- Go `flag.Parse()` on the arguments after the program name. Parsing stops
at the first argument that is not a flag. -/
def flagParse (g : Flags) (args : List Str) : FlagResult :=
  parseLoop args.length g args

/-! ## `main` -/

/-- The function `exitWithError`: the message goes to standard error and the
process exits with status 1. -/
def exitWithError (format : Str) (v : List Arg) (s : State) : Nat × State :=
  (1, s.emit (.stderrPrintf format v))

/-- The function `makeGitHubClient`: the client carries the token when the
token is not empty. -/
def makeGitHubClient (w : World) (githubToken : Str) : Client :=
  if githubToken ≠ [] then w.github (some githubToken) else w.github none

/-- The values of the flag variables before parsing: the defaults given to
`flag.StringVar` and `flag.BoolVar`. -/
def defaultFlags (w : World) : Flags :=
  { version := false
    githubToken := w.Getenv "GH_TOKEN".toList
    outputDirectory := ".".toList
    outputFileName := ".gitignore".toList
    list := false }

/-- The function `main`: `Args` is `os.Args`, the result is the exit status
of the process and the final state. A run with no `os.Args[0]` panics (exit
status 2). -/
def main (w : World) (serviceVersion : Str) (Args : List Str) (s : State) : Nat × State :=
  match Args with
  | [] => (2, s)
  | _ :: args =>
    match flagParse (defaultFlags w) args with
    | .help => (0, s.emit .usage)
    | .failf format a => (2, (s.emit (.flagError format a)).emit .usage)
    | .parsed g _ =>
      if g.version then
        (0, s.emit (.stdoutPrintf "%s version %s".toList [.str w.Executable, .str serviceVersion]))
      else if Args.length < 2 ∨ Args.getD 1 [] = [] then
        exitWithError "\nplease specify a language".toList [] (s.emit .usage)
      else
        let client := makeGitHubClient w g.githubToken
        match generateAvailableLanguages w.ToLower client s with
        | (.error err, s) => exitWithError "fail to get available languages: %s".toList [.err err] s
        | (.ok languages, s) =>
          if g.list then (0, printAvailableLanguages w languages s)
          else
            let language := w.ToLower (Args.getD 1 [])
            match languages.lookup language with
            | none => exitWithError "language %q not found".toList [.str language] s
            | some v =>
              match downloadFileContent client v s with
              | (.error err, s) => exitWithError "fail to download file content: %s".toList [.err err] s
              | (.ok content, s) =>
                match writeContentToFile w g content s with
                | (some err, s) => exitWithError "fail to write content to file: %s".toList [.err err] s
                | (none, s) => (0, s)

/-- The format of the unsupported-encoding error. -/
def unsupportedFormat : Str := "encoding %q is not supported".toList

/-- The format of the language-not-found error. -/
def notFoundFormat : Str := "language %q not found".toList

/-! ## A concrete world, for the examples -/

/-- The listing of the examples: two templates whose names differ in case
only, a directory, a file that is not a template, and a template. -/
def demoTree : Tree :=
  { Entries :=
      [ { SHA := some "sha-go-1".toList, Path := some "Go.gitignore".toList, Type_ := some "blob".toList },
        { SHA := some "sha-docs".toList, Path := some "docs.gitignore".toList, Type_ := some "tree".toList },
        { SHA := some "sha-readme".toList, Path := some "README.md".toList, Type_ := some "blob".toList },
        { SHA := some "sha-go-2".toList, Path := some "go.gitignore".toList, Type_ := some "blob".toList },
        { SHA := some "sha-python".toList, Path := some "Python.gitignore".toList, Type_ := some "blob".toList } ] }

/-- A listing in the order of a git tree (by bytes): a template named
"X.gitignore.bak", and a backup file "x.gitignore.bak" that is no template. -/
def bakTree : Tree :=
  { Entries :=
      [ { SHA := some "sha-template".toList, Path := some "X.gitignore.bak.gitignore".toList,
          Type_ := some "blob".toList },
        { SHA := some "sha-backup".toList, Path := some "x.gitignore.bak".toList,
          Type_ := some "blob".toList } ] }

/-- A client that answers with the listing `tree` and the blob `blob`. -/
def demoClient (tree : Tree) (blob : Blob) : Client :=
  { GetTree := fun _ _ _ _ => .ok tree
    GetBlob := fun _ _ _ => .ok blob }

/-- The blob of the examples: "hello", base64-encoded. -/
def helloBlob : Blob := { Content := some "aGVsbG8=".toList, Encoding := some "base64".toList }

/-- The bytes of "hello". -/
def helloBytes : List Byte := [104, 101, 108, 108, 111]

/-- A world on ASCII text where nothing fails and no pager is installed. -/
def demoWorld (client : Client) : World :=
  { ToLower := asciiToLower
    Join := filepathJoin
    Abs := fun p => .ok (if p.head? = some '/' then Clean p else filepathJoin "/home/user".toList p)
    Executable := "/usr/bin/gitignore".toList
    Getenv := fun _ => []
    LookPath := fun _ => .error (.os "executable file not found in $PATH".toList)
    Run := fun _ _ => none
    github := fun _ => client
    createErr := fun _ => none
    writeErr := fun _ _ => none
    closeErr := fun _ => none
    rangeOrder := GoMap.keys }

/-- The world of `demoWorld` on a full disk: every write fails at once. -/
def fullDiskWorld (client : Client) : World :=
  { demoWorld client with
    writeErr := fun _ _ => some (0, .os "no space left on device".toList) }

/-- The flag variables for the output "/tmp/x/.gitignore". -/
def tmpFlags : Flags :=
  { version := false
    githubToken := []
    outputDirectory := "/tmp/x".toList
    outputFileName := ".gitignore".toList
    list := false }

/-- The bytes of "*.log" and a line break. -/
def logBytes : List Byte := [42, 46, 108, 111, 103, 10]

/-- A file system in which "/tmp/x/.gitignore" exists already. -/
def usedFS : FS :=
  { files := fun p =>
      if p = "/tmp/x/.gitignore".toList then some [110, 111, 100, 101, 10]
      else if p = "/tmp/x/main.go".toList then some [112] else none
    handles := [{ fd := 3, path := "/tmp/x/main.go".toList }]
    nextFd := 4 }

/-- The index of the listing example of the specification. -/
def twoLanguages : GoMap :=
  [("go".toList, "sha-1".toList), ("python".toList, "sha-2".toList)]

/-- An index with one key, which holds a line break. -/
def brokenKeyIndex : GoMap := [("a\nb".toList, "sha-1".toList)]

/-- The world of `demoWorld` where `range` visits the keys last to first. -/
def reverseRangeWorld (client : Client) : World :=
  { demoWorld client with rangeOrder := fun m => m.keys.reverse }

/-- The world of `demoWorld` with `PAGER` set to "cat", found at
"/usr/bin/cat", whose run succeeds. -/
def pagerWorld (client : Client) : World :=
  { demoWorld client with
    Getenv := fun name => if name = "PAGER".toList then "cat".toList else []
    LookPath := fun file =>
      if file = "cat".toList then .ok "/usr/bin/cat".toList
      else .error (.os "executable file not found in $PATH".toList)
    Run := fun _ _ => none }

/-- The empty file system with no open handle. -/
def emptyFS : FS := { files := fun _ => none, handles := [], nextFd := 3 }

/-- The state at the start of a run on the empty file system. -/
def initState : State := { trace := [], fs := emptyFS }

/-! # Theorems -/

/-! ## Lemmas on the index -/

theorem GoMap.lookup_insert_self (m : GoMap) (k v : Str) :
    (m.insert k v).lookup k = some v := by
  simp [GoMap.insert, GoMap.lookup]

theorem GoMap.lookup_delete_ne (m : GoMap) (k k' : Str) (h : k ≠ k') :
    (m.delete k).lookup k' = m.lookup k' := by
  induction m with
  | nil => rfl
  | cons p m ih =>
    obtain ⟨a, b⟩ := p
    by_cases ha : a = k
    · have hk : ¬ a = k' := fun e => h (ha.symm.trans e)
      simp only [GoMap.delete, GoMap.lookup, ha, if_true, ih]
      rw [if_neg (ha ▸ hk)]
    · by_cases hk : a = k'
      · simp only [GoMap.delete, GoMap.lookup, if_neg ha, if_pos hk]
      · simp only [GoMap.delete, GoMap.lookup, if_neg ha, if_neg hk, ih]

theorem GoMap.lookup_insert_ne (m : GoMap) (k k' v : Str) (h : k ≠ k') :
    (m.insert k v).lookup k' = m.lookup k' := by
  simp only [GoMap.insert, GoMap.lookup, if_neg h, GoMap.lookup_delete_ne m k k' h]

theorem GoMap.mem_keys_iff (m : GoMap) (k : Str) :
    k ∈ m.keys ↔ (m.lookup k).isSome = true := by
  induction m with
  | nil => simp [GoMap.keys, GoMap.lookup]
  | cons p m ih =>
    obtain ⟨a, b⟩ := p
    by_cases ha : a = k
    · simp [GoMap.keys, GoMap.lookup, ha]
    · have hk : ¬ k = a := fun h => ha h.symm
      simp only [GoMap.keys] at ih
      simp [GoMap.keys, GoMap.lookup, ha, hk, ih]

theorem indexStep_lookup (ToLower : Str → Str) (m : GoMap) (e : TreeEntry) (k : Str) :
    (indexStep ToLower m e).lookup k =
      if contributes ToLower k e then some e.GetSHA else m.lookup k := by
  unfold indexStep contributes
  by_cases h1 : e.GetType = blobType
  · by_cases h2 : Contains e.GetPath dotGitignore = true
    · by_cases h3 : ToLower (TrimSuffix e.GetPath dotGitignore) = k
      · simp [h1, h2, h3, GoMap.lookup_insert_self]
      · simp [h1, h2, h3, GoMap.lookup_insert_ne _ _ _ _ h3]
    · simp [h1, h2]
  · simp [h1]

theorem foldl_indexStep_lookup (ToLower : Str → Str) (entries : List TreeEntry) (m : GoMap)
    (k : Str) :
    (entries.foldl (indexStep ToLower) m).lookup k =
      match (entries.filter (contributes ToLower k)).getLast? with
      | some e => some e.GetSHA
      | none => m.lookup k := by
  induction entries generalizing m with
  | nil => simp
  | cons e es ih =>
    rw [List.foldl_cons, ih, indexStep_lookup]
    by_cases hc : contributes ToLower k e = true
    · simp only [hc, if_true, List.filter_cons_of_pos]
      cases hes : List.filter (contributes ToLower k) es with
      | nil => simp
      | cons x xs =>
        cases hl : (x :: xs).getLast? with
        | none => simp at hl
        | some y => simp [List.getLast?_cons_cons, hl]
    · simp [hc]


/-! ## Lemmas on strings -/

theorem HasSuffix_append (n suffix : Str) : HasSuffix (n ++ suffix) suffix = true := by
  simp [HasSuffix]

theorem TrimSuffix_append (n suffix : Str) : TrimSuffix (n ++ suffix) suffix = n := by
  simp [TrimSuffix, HasSuffix_append]

theorem Contains_of_isPrefixOf (substr : Str) :
    ∀ s : Str, substr.isPrefixOf s = true → Contains s substr = true
  | [], h => by simpa [Contains] using h
  | c :: s, h => by simp [Contains, h]

theorem Contains_append_left (substr : Str) :
    ∀ n s : Str, Contains s substr = true → Contains (n ++ s) substr = true
  | [], s, h => by simpa using h
  | c :: n, s, h => by
    have ih := Contains_append_left substr n s h
    simp [Contains, ih]

theorem Contains_append_self (n substr : Str) : Contains (n ++ substr) substr = true :=
  Contains_append_left substr n substr
    (Contains_of_isPrefixOf substr substr (by simp))


/-! ## The language index -/

theorem getLast?_filter_mem {α : Type} (p : α → Bool) (l : List α) (e : α)
    (h : (l.filter p).getLast? = some e) : e ∈ l ∧ p e = true := by
  have hm : e ∈ l.filter p := List.mem_of_getLast?_eq_some h
  exact List.mem_filter.mp hm

theorem getLast?_filter_isSome {α : Type} (p : α → Bool) (l : List α) (e : α)
    (he : e ∈ l) (hp : p e = true) : ∃ e', (l.filter p).getLast? = some e' := by
  have hm : e ∈ l.filter p := List.mem_filter.mpr ⟨he, hp⟩
  cases hf : l.filter p with
  | nil => rw [hf] at hm; cases hm
  | cons x xs => exact ⟨(x :: xs).getLast (by simp), List.getLast?_eq_getLast _ _⟩

theorem generateAvailableLanguages_ok (ToLower : Str → Str) (client : Client) (s : State)
    (tree : Tree) (h : client.GetTree repoOwner repo repoBranch false = .ok tree) :
    generateAvailableLanguages ToLower client s =
      (.ok (tree.Entries.foldl (indexStep ToLower) []),
        s.emit (.GetTree repoOwner repo repoBranch false)) := by
  simp only [generateAvailableLanguages, h]

theorem index_lookup (ToLower : Str → Str) (entries : List TreeEntry) (k : Str) :
    (entries.foldl (indexStep ToLower) []).lookup k =
      ((entries.filter (contributes ToLower k)).getLast?).map TreeEntry.GetSHA := by
  rw [foldl_indexStep_lookup]
  cases (entries.filter (contributes ToLower k)).getLast? <;> simp [GoMap.lookup]

/-- C1: when the tree listing is retrieved, `generateAvailableLanguages`
returns an index that maps every string `k` to the SHA of the last entry of
the listing whose type is "blob", whose path contains ".gitignore" and whose
path, with a trailing ".gitignore" removed and then lowercased, is `k`; `k`
is a key of the index exactly when the listing has such an entry, so entries
of another type or without ".gitignore" in their path contribute no key. -/
theorem generateAvailableLanguages_index (ToLower : Str → Str) (client : Client) (s : State)
    (tree : Tree) (k : Str) (h : client.GetTree repoOwner repo repoBranch false = .ok tree) :
    ∃ idx : GoMap, (generateAvailableLanguages ToLower client s).1 = .ok idx ∧
      idx.lookup k =
        ((tree.Entries.filter (contributes ToLower k)).getLast?).map TreeEntry.GetSHA ∧
      (k ∈ idx.keys ↔ ∃ e ∈ tree.Entries, contributes ToLower k e = true) := by
  refine ⟨tree.Entries.foldl (indexStep ToLower) [], ?_, index_lookup ToLower _ k, ?_⟩
  · rw [generateAvailableLanguages_ok ToLower client s tree h]
  · rw [GoMap.mem_keys_iff, index_lookup]
    constructor
    · intro hs
      cases hl : (tree.Entries.filter (contributes ToLower k)).getLast? with
      | none => rw [hl] at hs; simp at hs
      | some e =>
        obtain ⟨he, hp⟩ := getLast?_filter_mem _ _ _ hl
        exact ⟨e, he, hp⟩
    · rintro ⟨e, he, hp⟩
      obtain ⟨e', hl⟩ := getLast?_filter_isSome _ _ e he hp
      simp [hl]

/-- C1, on the listing of the examples: "go" is mapped to the SHA of the
later of the two entries that give this key. -/
theorem generateAvailableLanguages_index_witness :
    (demoClient demoTree helloBlob).GetTree repoOwner repo repoBranch false = .ok demoTree ∧
    ((demoTree.Entries.filter (contributes asciiToLower "go".toList)).getLast?).map
      TreeEntry.GetSHA = some "sha-go-2".toList ∧
    ∃ idx : GoMap,
      (generateAvailableLanguages asciiToLower (demoClient demoTree helloBlob) initState).1
        = .ok idx ∧
      idx.lookup "go".toList =
        ((demoTree.Entries.filter (contributes asciiToLower "go".toList)).getLast?).map
          TreeEntry.GetSHA ∧
      ("go".toList ∈ idx.keys ↔
        ∃ e ∈ demoTree.Entries, contributes asciiToLower "go".toList e = true) :=
  ⟨rfl, by decide,
    generateAvailableLanguages_index asciiToLower (demoClient demoTree helloBlob) initState
      demoTree "go".toList rfl⟩

/-- C2, as amended: when the listing has a blob entry with path
`N ++ ".gitignore"` and the lowercased argument `a` equals the lowercased `N`,
the lookup of the driver succeeds, and it returns the SHA of a blob entry of
the listing whose path contains ".gitignore" and whose path, with a trailing
".gitignore" removed, equals `N` up to letter case. -/
theorem lookupLanguage_case_insensitive (ToLower : Str → Str) (client : Client) (s : State)
    (tree : Tree) (N a : Str)
    (h : client.GetTree repoOwner repo repoBranch false = .ok tree)
    (hN : ∃ e ∈ tree.Entries, e.GetType = blobType ∧ e.GetPath = N ++ dotGitignore)
    (ha : ToLower a = ToLower N) :
    ∃ idx : GoMap, (generateAvailableLanguages ToLower client s).1 = .ok idx ∧
      ∃ v, lookupLanguage ToLower idx a = some v ∧
        ∃ e ∈ tree.Entries, e.GetType = blobType ∧ e.GetSHA = v ∧
          Contains e.GetPath dotGitignore = true ∧
          ToLower (TrimSuffix e.GetPath dotGitignore) = ToLower N := by
  refine ⟨tree.Entries.foldl (indexStep ToLower) [], ?_, ?_⟩
  · rw [generateAvailableLanguages_ok ToLower client s tree h]
  · obtain ⟨e0, he0, ht0, hp0⟩ := hN
    have hc0 : contributes ToLower (ToLower N) e0 = true := by
      simp [contributes, ht0, hp0, Contains_append_self, TrimSuffix_append]
    obtain ⟨e, hl⟩ := getLast?_filter_isSome _ _ e0 he0 hc0
    obtain ⟨he, hp⟩ := getLast?_filter_mem _ _ _ hl
    refine ⟨e.GetSHA, ?_, e, he, ?_⟩
    · rw [lookupLanguage, ha, index_lookup, hl]
      rfl
    · simp only [contributes, Bool.and_eq_true, decide_eq_true_eq] at hp
      exact ⟨hp.1.1, rfl, hp.1.2, hp.2⟩

/-- C2 as amended, on the listing of the examples: "GO" finds a template. -/
theorem lookupLanguage_case_insensitive_witness :
    (∃ e ∈ demoTree.Entries, e.GetType = blobType ∧ e.GetPath = "Go".toList ++ dotGitignore) ∧
    asciiToLower "GO".toList = asciiToLower "Go".toList ∧
    ∃ idx : GoMap,
      (generateAvailableLanguages asciiToLower (demoClient demoTree helloBlob) initState).1
        = .ok idx ∧
      ∃ v, lookupLanguage asciiToLower idx "GO".toList = some v ∧
        ∃ e ∈ demoTree.Entries, e.GetType = blobType ∧ e.GetSHA = v ∧
          Contains e.GetPath dotGitignore = true ∧
          asciiToLower (TrimSuffix e.GetPath dotGitignore) = asciiToLower "Go".toList :=
  ⟨by decide, by decide,
    lookupLanguage_case_insensitive asciiToLower (demoClient demoTree helloBlob) initState
      demoTree "Go".toList "GO".toList rfl (by decide) (by decide)⟩


theorem asciiToLower_length (s : Str) : (asciiToLower s).length = s.length := by
  simp [asciiToLower]

/-- C2 as stated fails: the listing has the blob "X.gitignore.bak.gitignore",
so `N` is "X.gitignore.bak", and the argument "x.gitignore.bak" equals `N` up
to letter case. The lookup succeeds, but it returns the SHA of the blob
"x.gitignore.bak", whose key is its whole path; no blob entry with that SHA
has, before an occurrence of ".gitignore" in its path, a name equal to `N` up
to letter case. -/
theorem lookupLanguage_sha_of_other_name :
    (∃ e ∈ bakTree.Entries, e.GetType = blobType ∧
      e.GetPath = "X.gitignore.bak".toList ++ dotGitignore) ∧
    asciiToLower "x.gitignore.bak".toList = asciiToLower "X.gitignore.bak".toList ∧
    ∃ idx : GoMap,
      (generateAvailableLanguages asciiToLower (demoClient bakTree helloBlob) initState).1
        = .ok idx ∧
      lookupLanguage asciiToLower idx "x.gitignore.bak".toList = some "sha-backup".toList ∧
      ¬ ∃ e ∈ bakTree.Entries, e.GetType = blobType ∧ e.GetSHA = "sha-backup".toList ∧
          ∃ M rest : Str, e.GetPath = M ++ dotGitignore ++ rest ∧
            asciiToLower M = asciiToLower "X.gitignore.bak".toList := by
  refine ⟨by decide, by decide, _, rfl, by decide, ?_⟩
  rintro ⟨e, he, -, hs, M, rest, hp, hM⟩
  have hlen := congrArg List.length hM
  rw [asciiToLower_length, asciiToLower_length] at hlen
  simp only [bakTree, List.mem_cons, List.mem_singleton, List.not_mem_nil, or_false] at he
  rcases he with rfl | rfl
  · revert hs
    decide
  · have hp' := congrArg List.length hp
    simp [TreeEntry.GetPath, dotGitignore] at hp' hlen
    omega


/-! ## Base64: decoding undoes encoding -/

theorem or_shift (a b i : Nat) (h : b < 2 ^ i) : a <<< i ||| b = a * 2 ^ i + b := by
  rw [Nat.shiftLeft_eq, Nat.mul_comm, ← Nat.mul_add_lt_is_or h]

theorem and63 (x : Nat) : x &&& 0x3F = x % 64 := Nat.and_pow_two_sub_one_eq_mod x 6

theorem pack_two_eq (b0 b1 : Nat) (h1 : b1 < 256) :
    b0 <<< 16 ||| b1 <<< 8 = b0 * 65536 + b1 * 256 := by
  rw [or_shift b0 (b1 <<< 8) 16 (by rw [Nat.shiftLeft_eq]; omega), Nat.shiftLeft_eq]
  norm_num

theorem pack_eq (b0 b1 b2 : Nat) (h1 : b1 < 256) (h2 : b2 < 256) :
    b0 <<< 16 ||| b1 <<< 8 ||| b2 = b0 * 65536 + b1 * 256 + b2 := by
  have e1 := pack_two_eq b0 b1 h1
  have e2 : b0 * 65536 + b1 * 256 = (b0 * 256 + b1) <<< 8 := by
    rw [Nat.shiftLeft_eq]; omega
  rw [e1, e2, or_shift _ b2 8 (by omega)]
  omega

theorem assemble_three_eq (s0 s1 s2 : Nat) (h1 : s1 < 64) (h2 : s2 < 64) :
    s0 <<< 18 ||| s1 <<< 12 ||| s2 <<< 6 = s0 * 262144 + s1 * 4096 + s2 * 64 := by
  have e1 : s0 <<< 18 ||| s1 <<< 12 = s0 * 262144 + s1 * 4096 := by
    rw [or_shift s0 (s1 <<< 12) 18 (by rw [Nat.shiftLeft_eq]; omega), Nat.shiftLeft_eq]
    norm_num
  have e2 : s0 * 262144 + s1 * 4096 = (s0 * 64 + s1) <<< 12 := by
    rw [Nat.shiftLeft_eq]; omega
  rw [e1, e2, or_shift _ (s2 <<< 6) 12 (by rw [Nat.shiftLeft_eq]; omega), Nat.shiftLeft_eq]
  omega

theorem assemble_eq (s0 s1 s2 s3 : Nat) (h1 : s1 < 64) (h2 : s2 < 64) (h3 : s3 < 64) :
    s0 <<< 18 ||| s1 <<< 12 ||| s2 <<< 6 ||| s3 = s0 * 262144 + s1 * 4096 + s2 * 64 + s3 := by
  have e3 : s0 * 262144 + s1 * 4096 + s2 * 64 = (s0 * 4096 + s1 * 64 + s2) <<< 6 := by
    rw [Nat.shiftLeft_eq]; omega
  rw [assemble_three_eq s0 s1 s2 h1 h2, e3, or_shift _ s3 6 (by omega)]
  omega

theorem decodeMap_encodeChar_fin : ∀ i : Fin 64, decodeMap (encodeChar i.val) = some i.val := by
  decide

theorem decodeMap_encodeChar (i : Nat) (h : i < 64) : decodeMap (encodeChar i) = some i :=
  decodeMap_encodeChar_fin ⟨i, h⟩

theorem decodeMap_pad : decodeMap '=' = none := by decide

theorem toByte_eq (n : Nat) (b : Byte) (h : n % 256 = b.val) : toByte n = b :=
  Fin.ext h

theorem quantumBytes_four (b0 b1 b2 : Byte) :
    quantumBytes
      [(b0.val <<< 16 ||| b1.val <<< 8 ||| b2.val) >>> 18 &&& 0x3F,
        (b0.val <<< 16 ||| b1.val <<< 8 ||| b2.val) >>> 12 &&& 0x3F,
        (b0.val <<< 16 ||| b1.val <<< 8 ||| b2.val) >>> 6 &&& 0x3F,
        (b0.val <<< 16 ||| b1.val <<< 8 ||| b2.val) &&& 0x3F] = [b0, b1, b2] := by
  have h0 := b0.isLt
  have h1 := b1.isLt
  have h2 := b2.isLt
  simp only [quantumBytes, List.getD_cons_zero, List.getD_cons_succ, List.length_cons,
    List.length_nil, and63, Nat.shiftRight_eq_div_pow, pack_eq _ _ _ h1 h2]
  rw [assemble_eq _ _ _ _ (Nat.mod_lt _ (by decide)) (Nat.mod_lt _ (by decide))
    (Nat.mod_lt _ (by decide))]
  simp only [List.take, Nat.reduceAdd, Nat.reduceSub, Nat.reducePow, List.cons.injEq, and_true]
  refine ⟨toByte_eq _ _ ?_, toByte_eq _ _ ?_, toByte_eq _ _ ?_⟩ <;> omega

theorem quantumBytes_three (b0 b1 : Byte) :
    quantumBytes
      [(b0.val <<< 16 ||| b1.val <<< 8) >>> 18 &&& 0x3F,
        (b0.val <<< 16 ||| b1.val <<< 8) >>> 12 &&& 0x3F,
        (b0.val <<< 16 ||| b1.val <<< 8) >>> 6 &&& 0x3F] = [b0, b1] := by
  have h0 := b0.isLt
  have h1 := b1.isLt
  simp only [quantumBytes, List.getD_cons_zero, List.getD_cons_succ, List.length_cons,
    List.length_nil, List.getD_nil, and63, Nat.shiftRight_eq_div_pow, pack_two_eq _ _ h1,
    Nat.or_zero]
  rw [assemble_three_eq _ _ _ (Nat.mod_lt _ (by decide)) (Nat.mod_lt _ (by decide))]
  simp only [List.take, Nat.reduceAdd, Nat.reduceSub, Nat.reducePow, List.cons.injEq, and_true]
  refine ⟨toByte_eq _ _ ?_, toByte_eq _ _ ?_⟩ <;> omega

set_option maxRecDepth 100000 in
theorem quantumBytes_two : ∀ b0 : Byte,
    quantumBytes [(b0.val <<< 16) >>> 18 &&& 0x3F, (b0.val <<< 16) >>> 12 &&& 0x3F] = [b0] := by
  decide

theorem and63_lt (x : Nat) : x &&& 0x3F < 64 := by
  rw [and63]
  exact Nat.mod_lt _ (by decide)

theorem decodeFrom_quantum (s0 s1 s2 s3 : Nat) (h0 : s0 < 64) (h1 : s1 < 64) (h2 : s2 < 64)
    (h3 : s3 < 64) (rest : Str) :
    decodeFrom (encodeChar s0 :: encodeChar s1 :: encodeChar s2 :: encodeChar s3 :: rest) [] =
      match decodeFrom rest [] with
      | .ok data => .ok (quantumBytes [s0, s1, s2, s3] ++ data)
      | .error err => .error err := by
  simp [decodeFrom, decodeMap_encodeChar, h0, h1, h2, h3]

theorem decodeFrom_pad_one (s0 s1 s2 : Nat) (h0 : s0 < 64) (h1 : s1 < 64) (h2 : s2 < 64) :
    decodeFrom [encodeChar s0, encodeChar s1, encodeChar s2, '='] [] =
      .ok (quantumBytes [s0, s1, s2]) := by
  simp [decodeFrom, decodeMap_encodeChar, h0, h1, h2, decodeMap_pad, decodePadded, skipNewlines]

theorem decodeFrom_pad_two (s0 s1 : Nat) (h0 : s0 < 64) (h1 : s1 < 64) :
    decodeFrom [encodeChar s0, encodeChar s1, '=', '='] [] = .ok (quantumBytes [s0, s1]) := by
  simp [decodeFrom, decodeMap_encodeChar, h0, h1, decodeMap_pad, decodePadded, skipNewlines]

theorem DecodeString_EncodeToString : ∀ b : List Byte, DecodeString (EncodeToString b) = .ok b
  | [] => by simp [DecodeString, EncodeToString, decodeFrom]
  | [b0] => by
    rw [DecodeString, EncodeToString, decodeFrom_pad_two _ _ (and63_lt _) (and63_lt _),
      quantumBytes_two]
  | [b0, b1] => by
    rw [DecodeString, EncodeToString,
      decodeFrom_pad_one _ _ _ (and63_lt _) (and63_lt _) (and63_lt _), quantumBytes_three]
  | b0 :: b1 :: b2 :: rest => by
    have ih := DecodeString_EncodeToString rest
    rw [DecodeString] at ih
    rw [DecodeString, EncodeToString,
      decodeFrom_quantum _ _ _ _ (and63_lt _) (and63_lt _) (and63_lt _) (and63_lt _), ih,
      quantumBytes_four]
    rfl


/-! ## `downloadFileContent` -/

theorem downloadFileContent_result (client : Client) (sha : Str) (s : State) (blob : Blob)
    (h : client.GetBlob repoOwner repo sha = .ok blob) :
    (downloadFileContent client sha s).1 =
      if blob.GetEncoding = "base64".toList then DecodeString blob.GetContent
      else .error (.errorf unsupportedFormat [blob.GetEncoding]) := by
  simp only [downloadFileContent, h, unsupportedFormat]
  by_cases he : blob.GetEncoding = "base64".toList
  · rw [if_pos he, if_pos he]
    cases DecodeString blob.GetContent <;> rfl
  · rw [if_neg he, if_neg he]

theorem decodePadded_ne_errorf (dbuf : List Nat) (rest : Str) (format : Str) (args : List Str) :
    decodePadded dbuf rest ≠ .error (.errorf format args) := by
  unfold decodePadded
  split <;> simp

theorem decodeFrom_ne_errorf (format : Str) (args : List Str) :
    ∀ (src : Str) (dbuf : List Nat), decodeFrom src dbuf ≠ .error (.errorf format args)
  | [], dbuf => by
    unfold decodeFrom
    split <;> simp
  | c :: rest, dbuf => by
    have ih := decodeFrom_ne_errorf format args rest
    unfold decodeFrom
    split
    · split
      · split
        · simp
        · rename_i err hr
          intro hc
          injection hc with hc
          exact ih [] (by rw [hr, hc])
      · exact ih _
    · split
      · exact ih _
      · split
        · simp
        · split
          · simp
          · split
            · split
              · simp
              · split
                · simp
                · exact decodePadded_ne_errorf _ _ _ _
            · exact decodePadded_ne_errorf _ _ _ _

/-- C3: when the remote returns a blob whose declared encoding is "base64"
and whose content is the standard padded base64 encoding of the bytes `b`,
`downloadFileContent` returns exactly `b` and no error. -/
theorem downloadFileContent_base64 (client : Client) (sha : Str) (s : State) (blob : Blob)
    (b : List Byte) (h : client.GetBlob repoOwner repo sha = .ok blob)
    (henc : blob.GetEncoding = "base64".toList) (hcontent : blob.GetContent = EncodeToString b) :
    (downloadFileContent client sha s).1 = .ok b := by
  rw [downloadFileContent_result client sha s blob h, if_pos henc, hcontent,
    DecodeString_EncodeToString]

/-- C3, on the example of the specification: the content "aGVsbG8=" is the
encoding of "hello", and "hello" is returned. -/
theorem downloadFileContent_base64_witness :
    (demoClient demoTree helloBlob).GetBlob repoOwner repo "sha-go-2".toList = .ok helloBlob ∧
    helloBlob.GetEncoding = "base64".toList ∧
    helloBlob.GetContent = "aGVsbG8=".toList ∧
    "aGVsbG8=".toList = EncodeToString helloBytes ∧
    (downloadFileContent (demoClient demoTree helloBlob) "sha-go-2".toList initState).1
      = .ok helloBytes :=
  ⟨rfl, by decide, by decide, by decide,
    downloadFileContent_base64 (demoClient demoTree helloBlob) "sha-go-2".toList initState
      helloBlob helloBytes rfl (by decide) (by decide)⟩

/-- C4: for a blob that is retrieved, with declared encoding `e` and any
content, `downloadFileContent` fails with the unsupported-encoding error
exactly when `e` is not "base64"; the error then is
`encoding %q is not supported` with `e` as its argument, no bytes are
returned, and the result is the same for every blob that declares `e`,
whatever its content. -/
theorem downloadFileContent_unsupported (client : Client) (sha : Str) (s : State) (blob : Blob)
    (h : client.GetBlob repoOwner repo sha = .ok blob) :
    ((∃ args, (downloadFileContent client sha s).1 = .error (.errorf unsupportedFormat args))
        ↔ blob.GetEncoding ≠ "base64".toList) ∧
    (blob.GetEncoding ≠ "base64".toList →
      (downloadFileContent client sha s).1 =
          .error (.errorf unsupportedFormat [blob.GetEncoding]) ∧
      ∀ (client' : Client) (blob' : Blob),
        client'.GetBlob repoOwner repo sha = .ok blob' →
        blob'.GetEncoding = blob.GetEncoding →
        (downloadFileContent client' sha s).1 = (downloadFileContent client sha s).1) := by
  rw [downloadFileContent_result client sha s blob h]
  refine ⟨⟨?_, ?_⟩, ?_⟩
  · rintro ⟨args, hr⟩ he
    rw [if_pos he] at hr
    exact decodeFrom_ne_errorf _ _ _ _ hr
  · intro he
    exact ⟨[blob.GetEncoding], by rw [if_neg he]⟩
  · intro he
    refine ⟨by rw [if_neg he], ?_⟩
    intro client' blob' h' he'
    rw [downloadFileContent_result client' sha s blob' h', he', if_neg he, if_neg he]

/-- C4, on the example of the specification: the encoding "none" fails, and
the error names "none". -/
theorem downloadFileContent_unsupported_witness :
    (demoClient demoTree { Content := some "aGVsbG8=".toList, Encoding := some "none".toList }).GetBlob
        repoOwner repo "sha-go-2".toList
      = .ok { Content := some "aGVsbG8=".toList, Encoding := some "none".toList } ∧
    (downloadFileContent
        (demoClient demoTree { Content := some "aGVsbG8=".toList, Encoding := some "none".toList })
        "sha-go-2".toList initState).1
      = .error (.errorf "encoding %q is not supported".toList ["none".toList]) :=
  ⟨rfl,
    ((downloadFileContent_unsupported
        (demoClient demoTree { Content := some "aGVsbG8=".toList, Encoding := some "none".toList })
        "sha-go-2".toList initState
        { Content := some "aGVsbG8=".toList, Encoding := some "none".toList } rfl).2
      (by decide)).1⟩


/-! ## The driver: a language that is not in the index -/

theorem GoMap.lookup_eq_none_of_not_mem (m : GoMap) (k : Str) (h : k ∉ m.keys) :
    m.lookup k = none := by
  rw [GoMap.mem_keys_iff] at h
  cases hl : m.lookup k with
  | none => rfl
  | some v => rw [hl] at h; simp at h

/-- C5, as amended: in a run that is neither `-version` nor `-list`, with the
tree listing retrieved and a language argument `a` whose lowercased form is
not a key of the index, the driver exits with status 1 and reports the
lowercased name (`language %q not found` with the lowercased `a`); the run
adds to the trace the tree listing and this message only, so no blob is
fetched, and the file system is left as it was. -/
theorem main_language_not_found (w : World) (serviceVersion prog a : Str) (rest : List Str)
    (s : State) (g : Flags) (r : List Str) (tree : Tree)
    (hparse : flagParse (defaultFlags w) (a :: rest) = .parsed g r)
    (hversion : g.version = false) (hlist : g.list = false) (ha : a ≠ [])
    (htree : (makeGitHubClient w g.githubToken).GetTree repoOwner repo repoBranch false
      = .ok tree)
    (hk : w.ToLower a ∉ (tree.Entries.foldl (indexStep w.ToLower) []).keys) :
    (main w serviceVersion (prog :: a :: rest) s).1 = 1 ∧
    (main w serviceVersion (prog :: a :: rest) s).2.trace =
      s.trace ++ [.GetTree repoOwner repo repoBranch false,
        .stderrPrintf notFoundFormat [.str (w.ToLower a)]] ∧
    (main w serviceVersion (prog :: a :: rest) s).2.fs = s.fs := by
  have hlook := GoMap.lookup_eq_none_of_not_mem _ _ hk
  have hgen := generateAvailableLanguages_ok w.ToLower (makeGitHubClient w g.githubToken) s
    tree htree
  have hlen : ¬ rest.length + 1 + 1 < 2 := by omega
  simp [main, hparse, hversion, hlist, ha, hgen, hlook, exitWithError, State.emit,
    notFoundFormat, hlen]

/-- C5 as amended, on the example of the specification: "nosuchlang". -/
theorem main_language_not_found_witness :
    flagParse (defaultFlags (demoWorld (demoClient demoTree helloBlob)))
        ["nosuchlang".toList]
      = .parsed (defaultFlags (demoWorld (demoClient demoTree helloBlob))) ["nosuchlang".toList] ∧
    ((main (demoWorld (demoClient demoTree helloBlob)) "dev".toList
        ["gitignore".toList, "nosuchlang".toList] initState).1 = 1 ∧
      (main (demoWorld (demoClient demoTree helloBlob)) "dev".toList
        ["gitignore".toList, "nosuchlang".toList] initState).2.trace =
        initState.trace ++ [.GetTree repoOwner repo repoBranch false,
          .stderrPrintf notFoundFormat [.str (asciiToLower "nosuchlang".toList)]] ∧
      (main (demoWorld (demoClient demoTree helloBlob)) "dev".toList
        ["gitignore".toList, "nosuchlang".toList] initState).2.fs = initState.fs) :=
  ⟨by decide,
    main_language_not_found (demoWorld (demoClient demoTree helloBlob)) "dev".toList
      "gitignore".toList "nosuchlang".toList [] initState
      (defaultFlags (demoWorld (demoClient demoTree helloBlob))) ["nosuchlang".toList] demoTree
      (by decide) rfl rfl (by decide) rfl (by decide)⟩

/-- C5 as stated fails: for the argument "NoSuchLang", whose lowercased form
is not a key of the index, the run exits with status 1 after the tree listing
alone, but the message names "nosuchlang", the lowercased form, and no message
of the run names the argument "NoSuchLang" itself. -/
theorem main_not_found_names_lowercased :
    asciiToLower "NoSuchLang".toList ∉
      (demoTree.Entries.foldl (indexStep asciiToLower) []).keys ∧
    (main (demoWorld (demoClient demoTree helloBlob)) "dev".toList
      ["gitignore".toList, "NoSuchLang".toList] initState).1 = 1 ∧
    (main (demoWorld (demoClient demoTree helloBlob)) "dev".toList
      ["gitignore".toList, "NoSuchLang".toList] initState).2.trace =
      [.GetTree repoOwner repo repoBranch false,
        .stderrPrintf "language %q not found".toList [.str "nosuchlang".toList]] ∧
    Event.stderrPrintf "language %q not found".toList [.str "NoSuchLang".toList] ∉
      (main (demoWorld (demoClient demoTree helloBlob)) "dev".toList
        ["gitignore".toList, "NoSuchLang".toList] initState).2.trace := by
  refine ⟨by decide, by decide, by decide, by decide⟩


/-! ## `writeContentToFile` -/

/-- C6: when create, write and close succeed, `writeContentToFile` returns no
error, the file at the joined path of directory and file name holds exactly
the content written, whatever it held before, and the content of every other
path is unchanged. -/
theorem writeContentToFile_writes (w : World) (g : Flags) (content : List Byte) (s : State)
    (hcreate : w.createErr (w.Join g.outputDirectory g.outputFileName) = none)
    (hwrite : w.writeErr
      { fd := s.fs.nextFd, path := w.Join g.outputDirectory g.outputFileName } content = none)
    (hclose : w.closeErr
      { fd := s.fs.nextFd, path := w.Join g.outputDirectory g.outputFileName } = none) :
    (writeContentToFile w g content s).1 = none ∧
    (writeContentToFile w g content s).2.fs.files (w.Join g.outputDirectory g.outputFileName)
      = some content ∧
    ∀ p, p ≠ w.Join g.outputDirectory g.outputFileName →
      (writeContentToFile w g content s).2.fs.files p = s.fs.files p := by
  simp only [writeContentToFile, osCreate, hcreate, fileWrite, hwrite, fileClose, hclose]
  cases w.Abs (w.Join g.outputDirectory g.outputFileName) <;>
    exact ⟨rfl, by simp [State.emit], fun p hp => by simp [State.emit, hp]⟩

/-- C6, on the example of the specification: directory "/tmp/x", file name
".gitignore", content "*.log" and a line break, on a file system where
"/tmp/x/.gitignore" exists with other content. -/
theorem writeContentToFile_writes_witness :
    (demoWorld (demoClient demoTree helloBlob)).Join tmpFlags.outputDirectory
        tmpFlags.outputFileName = "/tmp/x/.gitignore".toList ∧
    usedFS.files "/tmp/x/.gitignore".toList = some [110, 111, 100, 101, 10] ∧
    ((writeContentToFile (demoWorld (demoClient demoTree helloBlob)) tmpFlags logBytes
        { trace := [], fs := usedFS }).1 = none ∧
      (writeContentToFile (demoWorld (demoClient demoTree helloBlob)) tmpFlags logBytes
        { trace := [], fs := usedFS }).2.fs.files
          ((demoWorld (demoClient demoTree helloBlob)).Join tmpFlags.outputDirectory
            tmpFlags.outputFileName) = some logBytes ∧
      ∀ p, p ≠ (demoWorld (demoClient demoTree helloBlob)).Join tmpFlags.outputDirectory
          tmpFlags.outputFileName →
        (writeContentToFile (demoWorld (demoClient demoTree helloBlob)) tmpFlags logBytes
          { trace := [], fs := usedFS }).2.fs.files p = usedFS.files p) :=
  ⟨by decide, by decide,
    writeContentToFile_writes (demoWorld (demoClient demoTree helloBlob)) tmpFlags logBytes
      { trace := [], fs := usedFS } rfl rfl rfl⟩

/-- C10 fails on the path where the write fails: on a full disk,
`writeContentToFile` returns the error of the write, and the handle that it
opened is still open when it returns, so the open handles after the call are
not those before the call. -/
theorem writeContentToFile_leaks_handle_on_write_error :
    (writeContentToFile (fullDiskWorld (demoClient demoTree helloBlob)) tmpFlags logBytes
        { trace := [], fs := usedFS }).1 = some (.os "no space left on device".toList) ∧
    usedFS.handles = [{ fd := 3, path := "/tmp/x/main.go".toList }] ∧
    (writeContentToFile (fullDiskWorld (demoClient demoTree helloBlob)) tmpFlags logBytes
        { trace := [], fs := usedFS }).2.fs.handles =
      [{ fd := 4, path := "/tmp/x/.gitignore".toList },
        { fd := 3, path := "/tmp/x/main.go".toList }] ∧
    (writeContentToFile (fullDiskWorld (demoClient demoTree helloBlob)) tmpFlags logBytes
        { trace := [], fs := usedFS }).2.fs.handles ≠ usedFS.handles := by
  refine ⟨by decide, by decide, by decide, by decide⟩

/-- On the paths other than a failing write (create fails; write succeeds,
whether close reports an error or not) the open handles after
`writeContentToFile` are those before it. -/
theorem writeContentToFile_handles (w : World) (g : Flags) (content : List Byte) (s : State)
    (h : w.createErr (w.Join g.outputDirectory g.outputFileName) ≠ none ∨
      w.writeErr { fd := s.fs.nextFd, path := w.Join g.outputDirectory g.outputFileName }
        content = none) :
    (writeContentToFile w g content s).2.fs.handles = s.fs.handles := by
  simp only [writeContentToFile, osCreate]
  cases hc : w.createErr (w.Join g.outputDirectory g.outputFileName) with
  | some err => rfl
  | none =>
    rw [hc] at h
    have hw := h.resolve_left (fun h => h rfl)
    simp only [fileWrite, hw, fileClose]
    cases w.closeErr { fd := s.fs.nextFd, path := w.Join g.outputDirectory g.outputFileName }
      with
    | some err => simp
    | none =>
      cases w.Abs (w.Join g.outputDirectory g.outputFileName) <;> simp [State.emit]

/-! ## The driver: flags and the language argument -/

/-- C7 fails on both orders of the command line. With the language first,
as the usage line has it, flag parsing stops at the language: `-filename
out.txt` is not parsed, and the content is written to ".gitignore" while
"out.txt" is not created. With the flag first, the language is taken from
`os.Args[1]`, which is "-filename": the run ends with status 1 (`language
"-filename" not found`) after the tree listing, and writes nothing. -/
theorem main_filename_flag_not_honoured :
    (main (demoWorld (demoClient demoTree helloBlob)) "dev".toList
      (["gitignore", "go", "-filename", "out.txt"].map String.toList) initState).1 = 0 ∧
    (main (demoWorld (demoClient demoTree helloBlob)) "dev".toList
      (["gitignore", "go", "-filename", "out.txt"].map String.toList) initState).2.fs.files
        ".gitignore".toList = some helloBytes ∧
    (main (demoWorld (demoClient demoTree helloBlob)) "dev".toList
      (["gitignore", "go", "-filename", "out.txt"].map String.toList) initState).2.fs.files
        "out.txt".toList = none ∧
    "go".toList ∈ (demoTree.Entries.foldl (indexStep asciiToLower) []).keys ∧
    (main (demoWorld (demoClient demoTree helloBlob)) "dev".toList
      (["gitignore", "-filename", "out.txt", "go"].map String.toList) initState).1 = 1 ∧
    (main (demoWorld (demoClient demoTree helloBlob)) "dev".toList
      (["gitignore", "-filename", "out.txt", "go"].map String.toList) initState).2.trace =
      [.GetTree repoOwner repo repoBranch false,
        .stderrPrintf "language %q not found".toList [.str "-filename".toList]] ∧
    (main (demoWorld (demoClient demoTree helloBlob)) "dev".toList
      (["gitignore", "-filename", "out.txt", "go"].map String.toList) initState).2.fs.files
        "out.txt".toList = none := by
  refine ⟨by decide, by decide, by decide, by decide, by decide, by decide, by decide⟩

/-- On a command line of flags only the guard of `main` passes: for
`gitignore -directory /tmp` no language is given, nor `-list` nor `-version`,
but `os.Args[1]` is not empty; the run makes the tree listing call, and exits
with status 1 on `language "-directory" not found`, without a usage message. -/
theorem main_flags_only_reaches_network :
    flagParse (defaultFlags (demoWorld (demoClient demoTree helloBlob)))
        (["-directory", "/tmp"].map String.toList)
      = .parsed
          { defaultFlags (demoWorld (demoClient demoTree helloBlob)) with
            outputDirectory := "/tmp".toList } [] ∧
    (main (demoWorld (demoClient demoTree helloBlob)) "dev".toList
      (["gitignore", "-directory", "/tmp"].map String.toList) initState).1 = 1 ∧
    (main (demoWorld (demoClient demoTree helloBlob)) "dev".toList
      (["gitignore", "-directory", "/tmp"].map String.toList) initState).2.trace =
      [.GetTree repoOwner repo repoBranch false,
        .stderrPrintf "language %q not found".toList [.str "-directory".toList]] := by
  refine ⟨by decide, by decide, by decide⟩

theorem parseFlag_seen_length (g g' : Flags) (name : Str) (value : Option Str)
    (rest args' : List Str) (h : parseFlag g name value rest = .seen g' args') :
    args'.length ≤ rest.length := by
  unfold parseFlag at h
  repeat' split at h
  all_goals (cases h; try simp)

theorem parseOne_seen_length (g g' : Flags) (args args' : List Str)
    (h : parseOne g args = .seen g' args') : args'.length < args.length := by
  cases args with
  | nil => cases h
  | cons s rest =>
    simp only [parseOne] at h
    repeat' split at h
    all_goals first
      | cases h
      | exact Nat.lt_succ_of_le (parseFlag_seen_length _ _ _ _ _ _ h)

theorem parseLoop_fuel : ∀ (n m : Nat) (g : Flags) (args : List Str),
    args.length ≤ n → args.length ≤ m → parseLoop n g args = parseLoop m g args
  | 0, 0, _, _, _, _ => rfl
  | 0, m + 1, g, args, hn, _ => by
    have ha : args = [] := List.length_eq_zero.mp (Nat.le_zero.mp hn)
    subst ha
    rfl
  | n + 1, 0, g, args, _, hm => by
    have ha : args = [] := List.length_eq_zero.mp (Nat.le_zero.mp hm)
    subst ha
    rfl
  | n + 1, m + 1, g, args, hn, hm => by
    simp only [parseLoop]
    cases hp : parseOne g args with
    | stop a => rfl
    | help => rfl
    | failf f a => rfl
    | seen g' args' =>
      have hlt := parseOne_seen_length g g' args args' hp
      exact parseLoop_fuel n m g' args' (by omega) (by omega)

/-- The loop of `flag.Parse()` unfolded once: enough fuel is given. -/
theorem flagParse_unfold (g : Flags) (args : List Str) :
    flagParse g args =
      match parseOne g args with
      | .stop args => .parsed g args
      | .seen g args => flagParse g args
      | .help => .help
      | .failf format a => .failf format a := by
  cases args with
  | nil => rfl
  | cons s rest =>
    simp only [flagParse, List.length_cons, parseLoop]
    cases hp : parseOne g (s :: rest) with
    | stop a => rfl
    | help => rfl
    | failf f a => rfl
    | seen g' args' =>
      have hlt := parseOne_seen_length g g' (s :: rest) args' hp
      simp only [List.length_cons] at hlt
      exact parseLoop_fuel _ _ g' args' (by omega) (Nat.le_refl _)

theorem flagParse_nil (g : Flags) : flagParse g [] = .parsed g [] := rfl

theorem flagParse_empty_arg (g : Flags) (rest : List Str) :
    flagParse g ([] :: rest) = .parsed g ([] :: rest) := by
  rw [flagParse_unfold]
  simp [parseOne]

/-- C8 as stated fails: on the command line `gitignore -bogus` no language is
given, nor `-list` nor `-version`, and the run ends in `flag.Parse()`, which
reports the flag that is not defined, prints the usage and exits with status
2, not 1. No remote call is made. -/
theorem main_undefined_flag_exits_two :
    parseOne (defaultFlags (demoWorld (demoClient demoTree helloBlob))) ["-bogus".toList]
      = .failf "flag provided but not defined: -%s".toList ["bogus".toList] ∧
    (main (demoWorld (demoClient demoTree helloBlob)) "dev".toList
      (["gitignore", "-bogus"].map String.toList) initState).1 = 2 ∧
    (main (demoWorld (demoClient demoTree helloBlob)) "dev".toList
      (["gitignore", "-bogus"].map String.toList) initState).2.trace =
      [.flagError "flag provided but not defined: -%s".toList ["bogus".toList], .usage] := by
  refine ⟨by decide, by decide, by decide⟩

/-- C8, as amended: on every command line with no argument after the program
name, or with an empty first argument, `main` prints the usage, reports
`please specify a language` on standard error and exits with status 1;
nothing else happens in the run, so no remote call is made and the file
system is left as it was. -/
theorem main_usage_error (w : World) (serviceVersion prog : Str) (rest : List Str) (s : State) :
    ((main w serviceVersion [prog] s).1 = 1 ∧
      (main w serviceVersion [prog] s).2.trace =
        s.trace ++ [.usage, .stderrPrintf "\nplease specify a language".toList []] ∧
      (main w serviceVersion [prog] s).2.fs = s.fs) ∧
    ((main w serviceVersion (prog :: [] :: rest) s).1 = 1 ∧
      (main w serviceVersion (prog :: [] :: rest) s).2.trace =
        s.trace ++ [.usage, .stderrPrintf "\nplease specify a language".toList []] ∧
      (main w serviceVersion (prog :: [] :: rest) s).2.fs = s.fs) := by
  constructor
  · simp [main, flagParse_nil, defaultFlags, exitWithError, State.emit]
  · simp [main, flagParse_empty_arg, defaultFlags, exitWithError, State.emit]

/-! ## `printAvailableLanguages` -/

theorem foldl_output_append (ks : List Str) : ∀ init : Str,
    ks.foldl (fun output k => output ++ ('\n' :: k)) init =
      init ++ ks.foldl (fun output k => output ++ ('\n' :: k)) [] := by
  induction ks with
  | nil => intro init; simp
  | cons k ks ih =>
    intro init
    rw [List.foldl_cons, List.foldl_cons, ih (init ++ '\n' :: k), ih ([] ++ '\n' :: k)]
    simp

theorem linesFrom_append (k : Str) : ∀ (rest cur : Str), '\n' ∉ k →
    linesFrom (k ++ rest) cur = linesFrom rest (cur ++ k) := by
  induction k with
  | nil => intro rest cur _; simp
  | cons c k ih =>
    intro rest cur h
    have hc : c ≠ '\n' := fun e => h (by simp [e])
    have hk : '\n' ∉ k := fun e => h (List.mem_cons_of_mem _ e)
    rw [List.cons_append, linesFrom, if_neg hc, ih rest (cur ++ [c]) hk]
    simp

theorem linesFrom_keys (ks : List Str) : ∀ cur : Str, (∀ k ∈ ks, '\n' ∉ k) →
    linesFrom (ks.foldl (fun output k => output ++ ('\n' :: k)) [] ++ ['\n']) cur = cur :: ks := by
  induction ks with
  | nil => intro cur _; simp [linesFrom]
  | cons k ks ih =>
    intro cur h
    have hk : '\n' ∉ k := h k (List.mem_cons_self _ _)
    have hks : ∀ k' ∈ ks, '\n' ∉ k' := fun k' hk' => h k' (List.mem_cons_of_mem _ hk')
    rw [List.foldl_cons, foldl_output_append ks ([] ++ '\n' :: k)]
    simp only [List.nil_append, List.cons_append, List.append_assoc]
    rw [linesFrom, if_pos rfl, linesFrom_append k _ [] hk, List.nil_append, ih k hks]

theorem lines_listOutput (order : List Str) (h : ∀ k ∈ order, '\n' ∉ k) :
    lines (listOutput order ++ ['\n']) = listHeader :: [] :: order := by
  have hh : '\n' ∉ listHeader := by decide
  rw [lines, listOutput, foldl_output_append order, List.append_assoc, List.append_assoc,
    linesFrom_append listHeader _ [] hh, List.nil_append]
  rw [List.singleton_append, linesFrom, if_pos rfl, linesFrom_keys order [] h]

theorem printAvailableLanguages_no_pager (w : World) (m : GoMap) (s : State) (err : GoError)
    (h : w.LookPath (w.Getenv "PAGER".toList) = .error err) :
    printAvailableLanguages w m s =
      s.emit (.stdoutText (listOutput (w.rangeOrder m) ++ ['\n'])) := by
  simp only [printAvailableLanguages, h]

theorem printAvailableLanguages_pager_ok (w : World) (m : GoMap) (s : State) (path : Str)
    (h : w.LookPath (w.Getenv "PAGER".toList) = .ok path)
    (hr : w.Run path (listOutput (w.rangeOrder m)) = none) :
    printAvailableLanguages w m s = s.emit (.pager path (listOutput (w.rangeOrder m))) := by
  simp only [printAvailableLanguages, h, hr]

theorem printAvailableLanguages_pager_fails (w : World) (m : GoMap) (s : State) (path : Str)
    (err : GoError) (h : w.LookPath (w.Getenv "PAGER".toList) = .ok path)
    (hr : w.Run path (listOutput (w.rangeOrder m)) = some err) :
    printAvailableLanguages w m s =
      (s.emit (.pager path (listOutput (w.rangeOrder m)))).emit
        (.stdoutText (listOutput (w.rangeOrder m) ++ ['\n'])) := by
  simp only [printAvailableLanguages, h, hr]

/-- C9, as amended: for every language index with distinct keys none of
which holds a line break, and every order in which `range` visits the keys,
the text that `printAvailableLanguages` emits through the logger, which is
the string `output` that it builds and a line break, consists of the header
line "Available languages:", one blank line, and the keys in the order
visited, one per line: the lines after the blank line are a permutation of
the keys, no two of them are equal, every key is one of them and each of them
is a key. When no pager is found the run emits exactly this text, once, on
standard output, and nothing else. When a pager is found the run hands
`output`, the same text without its last line break, to the pager, once; it
emits nothing else when the pager run succeeds, and emits the text once on
standard output after it when the pager run fails. The file system is left as
it was. -/
theorem printAvailableLanguages_lines (w : World) (m : GoMap) (s : State)
    (hnodup : m.keys.Nodup) (horder : (w.rangeOrder m).Perm m.keys)
    (hnl : ∀ k ∈ m.keys, '\n' ∉ k) :
    lines (listOutput (w.rangeOrder m) ++ ['\n']) = listHeader :: [] :: w.rangeOrder m ∧
    ((lines (listOutput (w.rangeOrder m) ++ ['\n'])).drop 2).Perm m.keys ∧
    ((lines (listOutput (w.rangeOrder m) ++ ['\n'])).drop 2).Nodup ∧
    (∀ k ∈ m.keys, k ∈ (lines (listOutput (w.rangeOrder m) ++ ['\n'])).drop 2) ∧
    (∀ l ∈ (lines (listOutput (w.rangeOrder m) ++ ['\n'])).drop 2, l ∈ m.keys) ∧
    (∀ err, w.LookPath (w.Getenv "PAGER".toList) = .error err →
      (printAvailableLanguages w m s).trace =
        s.trace ++ [.stdoutText (listOutput (w.rangeOrder m) ++ ['\n'])]) ∧
    (∀ path, w.LookPath (w.Getenv "PAGER".toList) = .ok path →
      w.Run path (listOutput (w.rangeOrder m)) = none →
      (printAvailableLanguages w m s).trace =
        s.trace ++ [.pager path (listOutput (w.rangeOrder m))]) ∧
    (∀ path err, w.LookPath (w.Getenv "PAGER".toList) = .ok path →
      w.Run path (listOutput (w.rangeOrder m)) = some err →
      (printAvailableLanguages w m s).trace =
        s.trace ++ [.pager path (listOutput (w.rangeOrder m)),
          .stdoutText (listOutput (w.rangeOrder m) ++ ['\n'])]) ∧
    (printAvailableLanguages w m s).fs = s.fs := by
  have hl := lines_listOutput (w.rangeOrder m) (fun k hk => hnl k (horder.mem_iff.mp hk))
  refine ⟨hl, ?_, ?_, ?_, ?_, ?_, ?_, ?_, ?_⟩
  · rw [hl]; exact horder
  · rw [hl]; exact horder.nodup_iff.mpr hnodup
  · intro k hk
    rw [hl]
    exact horder.mem_iff.mpr hk
  · intro l hlm
    rw [hl] at hlm
    exact horder.mem_iff.mp hlm
  · intro err h
    rw [printAvailableLanguages_no_pager w m s err h]
    rfl
  · intro path h hr
    rw [printAvailableLanguages_pager_ok w m s path h hr]
    rfl
  · intro path err h hr
    rw [printAvailableLanguages_pager_fails w m s path err h hr]
    simp [State.emit]
  · cases h : w.LookPath (w.Getenv "PAGER".toList) with
    | error err => rw [printAvailableLanguages_no_pager w m s err h]; rfl
    | ok path =>
      cases hr : w.Run path (listOutput (w.rangeOrder m)) with
      | none => rw [printAvailableLanguages_pager_ok w m s path h hr]; rfl
      | some err => rw [printAvailableLanguages_pager_fails w m s path err h hr]; rfl

/-- C9 as amended, on the example of the specification: the index with the
keys "go" and "python", visited last to first, with no pager. The run emits
one text, whose lines are the header, a blank line, "python" and "go". -/
theorem printAvailableLanguages_lines_witness :
    twoLanguages.keys.Nodup ∧
    ((reverseRangeWorld (demoClient demoTree helloBlob)).rangeOrder twoLanguages).Perm
      twoLanguages.keys ∧
    (∀ k ∈ twoLanguages.keys, '\n' ∉ k) ∧
    (reverseRangeWorld (demoClient demoTree helloBlob)).rangeOrder twoLanguages
      = ["python".toList, "go".toList] ∧
    (printAvailableLanguages (reverseRangeWorld (demoClient demoTree helloBlob)) twoLanguages
      initState).trace = [.stdoutText "Available languages:\n\npython\ngo\n".toList] ∧
    lines "Available languages:\n\npython\ngo\n".toList =
      ["Available languages:".toList, [], "python".toList, "go".toList] ∧
    (lines (listOutput ((reverseRangeWorld (demoClient demoTree helloBlob)).rangeOrder
        twoLanguages) ++ ['\n'])
      = listHeader :: [] ::
          (reverseRangeWorld (demoClient demoTree helloBlob)).rangeOrder twoLanguages ∧
      ((lines (listOutput ((reverseRangeWorld (demoClient demoTree helloBlob)).rangeOrder
        twoLanguages) ++ ['\n'])).drop 2).Perm twoLanguages.keys) :=
  ⟨by decide, by decide, by decide, by decide, by decide, by decide,
    (printAvailableLanguages_lines (reverseRangeWorld (demoClient demoTree helloBlob))
      twoLanguages initState (by decide) (by decide) (by decide)).1,
    (printAvailableLanguages_lines (reverseRangeWorld (demoClient demoTree helloBlob))
      twoLanguages initState (by decide) (by decide) (by decide)).2.1⟩

/-- C9 as stated fails in two ways. A key that holds a line break is emitted
as more than one line: for the index with the single key "a", line break,
"b", and no pager, the text emitted has the lines "a" and "b" after the blank
line; the key is none of the lines, and the line "a" is no key, so the lines
are not a permutation of the keys. And the text handed to a pager has no line
break after its last line: for the empty index, with the pager "cat" found
and run, all that the run emits is the header and one line break on the
standard input of the pager, a text of one line, with no blank line. -/
theorem printAvailableLanguages_lines_fail :
    (brokenKeyIndex.keys = ["a\nb".toList] ∧
      (printAvailableLanguages (demoWorld (demoClient demoTree helloBlob)) brokenKeyIndex
        initState).trace = [.stdoutText "Available languages:\n\na\nb\n".toList] ∧
      lines "Available languages:\n\na\nb\n".toList =
        ["Available languages:".toList, [], "a".toList, "b".toList] ∧
      "a\nb".toList ∉ lines "Available languages:\n\na\nb\n".toList ∧
      "a".toList ∉ brokenKeyIndex.keys ∧
      ¬ ((lines "Available languages:\n\na\nb\n".toList).drop 2).Perm brokenKeyIndex.keys) ∧
    (GoMap.keys [] = [] ∧
      (printAvailableLanguages (pagerWorld (demoClient demoTree helloBlob)) [] initState).trace
        = [.pager "/usr/bin/cat".toList "Available languages:\n".toList] ∧
      lines "Available languages:\n".toList = ["Available languages:".toList] ∧
      lines "Available languages:\n".toList ≠ ["Available languages:".toList, []]) := by
  refine ⟨⟨by decide, by decide, by decide, by decide, by decide, by decide⟩,
    ⟨by decide, by decide, by decide, by decide⟩⟩

end Gitignore
